import Mathlib

/-!
Shallow embedding of the `nlp_infer_bench` model-conversion pipeline
(`config.py`, `conversion.py`, `s3_utils.py`) and proofs about its
registry, orchestrator and object-store helpers.

Paths are modelled as lists of segments; file contents and YAML documents
are modelled structurally (the serialized registry is its list of entries).
External effects (the conversion subprocess, the S3 client) are modelled as
oracles supplied to the orchestrator, exactly at the call boundary the
Python code uses.
-/

namespace NlpInferBench

/-! ## String and path helpers -/

/-- A filesystem path, as its list of segments. -/
abbrev FsPath := List String

/-- `_sanitize` from `conversion.py`: `name.replace("/", "-")`.
Single-character replace is a character-wise map. -/
def sanitize (name : String) : String :=
  String.mk (name.toList.map fun c => if c = '/' then '-' else c)

/-- Split a character list at `/`, accumulating the current segment. -/
def splitSlashAux : List Char → List Char → List String
  | [], acc => [String.mk acc.reverse]
  | c :: cs, acc =>
      if c = '/' then String.mk acc.reverse :: splitSlashAux cs []
      else splitSlashAux cs (c :: acc)

/-- Decompose a path string into its segments (`Path("a/b/c")`). -/
def pathSegs (s : String) : FsPath :=
  (splitSlashAux s.toList []).filter (fun seg => seg ≠ "")

/-- Python `s.rstrip("/")`: drop every trailing `/`. -/
def rstripSlash (s : String) : String :=
  String.mk ((s.toList.reverse.dropWhile fun c => c = '/').reverse)

/-- Python `s.partition("/")`, keeping the pieces before and after the first
separator (the separator itself is dropped): `("b/x/y" ↦ ("b", "x/y"))`,
`("b" ↦ ("b", ""))`. -/
def partitionSlash (s : String) : String × String :=
  let pre := s.toList.takeWhile fun c => c ≠ '/'
  let rest := s.toList.dropWhile fun c => c ≠ '/'
  (String.mk pre, String.mk (rest.drop 1))

/-- Whether a string ends with the separator character. -/
def endsWithSlash (s : String) : Bool :=
  s.toList.getLast? = some '/'

/-! ## Registry data model (`config.py`) -/

/-- `RegistryEntry`: record describing a converted model artifact.
`metrics : Dict[str, float]` is modelled as an association list from names
to rationals; no claim inspects metric values. -/
structure RegistryEntry where
  model_name : String
  framework : String
  precision : String
  task : String
  revision : String
  local_path : String
  s3_uri : Option String := none
  conversion_command : Option String := none
  metrics : List (String × Rat) := []
deriving DecidableEq, Repr

/-- The dedup key of an entry. -/
def RegistryEntry.triple (e : RegistryEntry) : String × String × String :=
  (e.model_name, e.framework, e.precision)

/-- The body of `ModelRegistry.find`: first entry matching the triple. -/
def findEntry : List RegistryEntry → String → String → String → Option RegistryEntry
  | [], _, _, _ => none
  | e :: es, n, f, p =>
      if e.model_name = n ∧ e.framework = f ∧ e.precision = p then some e
      else findEntry es n f p

/-- Python `list.remove(x)`: delete the first element equal to `x`
(no-op when absent — `ModelRegistry.upsert` only calls it on a member). -/
def removeFirst : List RegistryEntry → RegistryEntry → List RegistryEntry
  | [], _ => []
  | e :: es, x => if e = x then es else e :: removeFirst es x

/-- `ModelRegistry`: ordered collection of artifacts. -/
structure ModelRegistry where
  artifacts : List RegistryEntry := []
deriving DecidableEq, Repr

def ModelRegistry.find (r : ModelRegistry) (n f p : String) : Option RegistryEntry :=
  findEntry r.artifacts n f p

/-- `ModelRegistry.upsert`: remove the entry found for the triple (if any),
then append the new entry. -/
def ModelRegistry.upsert (r : ModelRegistry) (entry : RegistryEntry) : ModelRegistry :=
  match r.find entry.model_name entry.framework entry.precision with
  | some existing => { artifacts := removeFirst r.artifacts existing ++ [entry] }
  | none => { artifacts := r.artifacts ++ [entry] }

/-- `ModelRegistry.filter`: read-only projection by framework. -/
def ModelRegistry.filterFw (r : ModelRegistry) (frameworks : Option (List String)) :
    List RegistryEntry :=
  match frameworks with
  | none => r.artifacts
  | some fws => r.artifacts.filter fun e => e.framework ∈ fws

/-- A parsed registry file: either a YAML/shape error, or the entry list. -/
inductive LoadErr
  | parseError
deriving DecidableEq, Repr

/-- `ModelRegistry.from_path`, over an abstract filesystem: `none` means the
path does not exist (→ empty registry); otherwise the file's parse outcome
is propagated. -/
def fromPathDoc : Option (Except LoadErr (List RegistryEntry)) →
    Except LoadErr ModelRegistry
  | none => .ok {}
  | some (.error e) => .error e
  | some (.ok es) => .ok { artifacts := es }

/-- `ModelRegistry.from_path` at a path of a filesystem. -/
def fromPathAt (fs : FsPath → Option (Except LoadErr (List RegistryEntry)))
    (p : FsPath) : Except LoadErr ModelRegistry :=
  fromPathDoc (fs p)

/-! ## Registry lemmas -/

/-- No two entries of the list share a dedup triple. -/
@[reducible] def NoDupTriples (l : List RegistryEntry) : Prop :=
  l.Pairwise fun a b => a.triple ≠ b.triple

theorem findEntry_eq_none_iff (l : List RegistryEntry) (n f p : String) :
    findEntry l n f p = none ↔
      ∀ e ∈ l, ¬(e.model_name = n ∧ e.framework = f ∧ e.precision = p) := by
  induction l with
  | nil => simp [findEntry]
  | cons e es ih =>
    simp only [findEntry, List.mem_cons]
    by_cases h : e.model_name = n ∧ e.framework = f ∧ e.precision = p
    · simp [h]
    · simp only [if_neg h, ih]
      constructor
      · rintro hall x (rfl | hx)
        · exact h
        · exact hall x hx
      · intro hall x hx
        exact hall x (Or.inr hx)

theorem findEntry_isSome_of_mem {l : List RegistryEntry} {e : RegistryEntry}
    (he : e ∈ l) (n f p : String)
    (h : e.model_name = n ∧ e.framework = f ∧ e.precision = p) :
    findEntry l n f p ≠ none := by
  intro hnone
  exact (findEntry_eq_none_iff l n f p).mp hnone e he h

theorem findEntry_mem {l : List RegistryEntry} {n f p : String}
    {e : RegistryEntry} (h : findEntry l n f p = some e) :
    e ∈ l ∧ e.model_name = n ∧ e.framework = f ∧ e.precision = p := by
  induction l with
  | nil => simp [findEntry] at h
  | cons x xs ih =>
    simp only [findEntry] at h
    split at h
    · cases h
      exact ⟨List.mem_cons_self _ _, by assumption⟩
    · obtain ⟨hmem, hp⟩ := ih h
      exact ⟨List.mem_cons_of_mem _ hmem, hp⟩

theorem removeFirst_subset {l : List RegistryEntry} {x e : RegistryEntry}
    (h : e ∈ removeFirst l x) : e ∈ l := by
  induction l with
  | nil => simp [removeFirst] at h
  | cons y ys ih =>
    simp only [removeFirst] at h
    split at h
    · exact List.mem_cons_of_mem _ h
    · rcases List.mem_cons.mp h with rfl | h
      · exact List.mem_cons_self _ _
      · exact List.mem_cons_of_mem _ (ih h)

theorem triple_eq_iff {a : RegistryEntry} {n f p : String} :
    a.triple = (n, f, p) ↔
      a.model_name = n ∧ a.framework = f ∧ a.precision = p := by
  simp [RegistryEntry.triple, Prod.ext_iff]

theorem removeFirst_sublist (l : List RegistryEntry) (x : RegistryEntry) :
    List.Sublist (removeFirst l x) l := by
  induction l with
  | nil => simp [removeFirst]
  | cons y ys ih =>
    simp only [removeFirst]
    split
    · exact (List.Sublist.refl ys).cons y
    · exact ih.cons₂ y

theorem removeFirst_triple_ne {l : List RegistryEntry} {x y : RegistryEntry}
    (hnd : NoDupTriples l) (hy : y ∈ removeFirst l x) (hx : x ∈ l) :
    y.triple ≠ x.triple := by
  induction l with
  | nil => simp at hx
  | cons z zs ih =>
    rw [NoDupTriples, List.pairwise_cons] at hnd
    obtain ⟨hz, hnd'⟩ := hnd
    simp only [removeFirst] at hy
    split at hy
    · subst_vars
      exact fun h => hz y hy h.symm
    · rcases List.mem_cons.mp hx with rfl | hx'
      · simp_all
      · rcases List.mem_cons.mp hy with rfl | hy'
        · exact hz x hx'
        · exact ih hnd' hy' hx'

theorem findEntry_append (l₁ l₂ : List RegistryEntry) (n f p : String) :
    findEntry (l₁ ++ l₂) n f p =
      match findEntry l₁ n f p with
      | some e => some e
      | none => findEntry l₂ n f p := by
  induction l₁ with
  | nil => simp [findEntry]
  | cons e es ih =>
    simp only [List.cons_append, findEntry]
    split <;> simp [ih]

theorem findEntry_removeFirst {l : List RegistryEntry} {x : RegistryEntry}
    {n f p : String}
    (hx : ¬(x.model_name = n ∧ x.framework = f ∧ x.precision = p)) :
    findEntry (removeFirst l x) n f p = findEntry l n f p := by
  induction l with
  | nil => simp [removeFirst]
  | cons y ys ih =>
    simp only [removeFirst]
    split
    · subst_vars
      simp [findEntry, hx]
    · simp only [findEntry]
      split <;> simp [ih]

/-- Looking up a triple different from the upserted entry's is unchanged. -/
theorem find_upsert_other (r : ModelRegistry) (e : RegistryEntry)
    {n f p : String} (h : (n, f, p) ≠ e.triple) :
    (r.upsert e).find n f p = r.find n f p := by
  have he : ¬(e.model_name = n ∧ e.framework = f ∧ e.precision = p) := by
    rintro ⟨rfl, rfl, rfl⟩
    exact h rfl
  unfold ModelRegistry.upsert ModelRegistry.find
  split
  · rename_i existing hex
    obtain ⟨_, h1, h2, h3⟩ := findEntry_mem hex
    have hex' : ¬(existing.model_name = n ∧ existing.framework = f ∧
        existing.precision = p) := by
      rintro ⟨rfl, rfl, rfl⟩
      exact h (by simp [RegistryEntry.triple, h1, h2, h3])
    rw [findEntry_append, findEntry_removeFirst hex']
    cases hfind : findEntry r.artifacts n f p <;> simp [findEntry, he]
  · rw [findEntry_append]
    cases hfind : findEntry r.artifacts n f p <;> simp [findEntry, he]

/-- In a duplicate-free registry, looking up the upserted entry's own triple
returns that entry. -/
theorem find_upsert_self (r : ModelRegistry) (e : RegistryEntry)
    (hnd : NoDupTriples r.artifacts) :
    (r.upsert e).find e.model_name e.framework e.precision = some e := by
  unfold ModelRegistry.upsert ModelRegistry.find
  split
  · rename_i existing hex
    obtain ⟨hmem, h1, h2, h3⟩ := findEntry_mem hex
    have hnone : findEntry (removeFirst r.artifacts existing)
        e.model_name e.framework e.precision = none := by
      rw [findEntry_eq_none_iff]
      rintro y hy ⟨hy1, hy2, hy3⟩
      exact removeFirst_triple_ne hnd hy hmem
        (by simp [RegistryEntry.triple, hy1, hy2, hy3, h1, h2, h3])
    rw [findEntry_append, hnone]
    simp [findEntry]
  · rw [findEntry_append]
    rename_i hnone
    rw [hnone]
    simp [findEntry]

/-- `upsert` preserves triple-uniqueness. -/
theorem noDupTriples_upsert (r : ModelRegistry) (e : RegistryEntry)
    (hnd : NoDupTriples r.artifacts) :
    NoDupTriples (r.upsert e).artifacts := by
  unfold ModelRegistry.upsert
  split
  · rename_i existing hex
    obtain ⟨hmem, h1, h2, h3⟩ := findEntry_mem hex
    rw [NoDupTriples, List.pairwise_append]
    refine ⟨List.Pairwise.sublist (removeFirst_sublist _ _) hnd,
      List.pairwise_singleton _ _, ?_⟩
    intro a ha b hb
    rw [List.mem_singleton] at hb
    intro hab
    rw [hb] at hab
    have hext : existing.triple = e.triple := by
      simp [RegistryEntry.triple, h1, h2, h3]
    exact removeFirst_triple_ne hnd ha hmem (hab.trans hext.symm)
  · rename_i hnone
    rw [NoDupTriples, List.pairwise_append]
    refine ⟨hnd, List.pairwise_singleton _ _, ?_⟩
    intro a ha b hb
    rw [List.mem_singleton] at hb
    intro hab
    rw [hb] at hab
    unfold ModelRegistry.find at hnone
    rw [findEntry_eq_none_iff] at hnone
    exact hnone a ha (triple_eq_iff.mp hab)

/-- Fold a sequence of upserts into a registry, in order. -/
def upsertAll (r : ModelRegistry) (es : List RegistryEntry) : ModelRegistry :=
  es.foldl ModelRegistry.upsert r

/-- The latest entry of the sequence carrying the given triple, if any
(the "most recent upsert" for that triple). -/
def lastMatch (es : List RegistryEntry) (t : String × String × String) :
    Option RegistryEntry :=
  match es with
  | [] => none
  | e :: rest =>
      match lastMatch rest t with
      | some x => some x
      | none => if e.triple = t then some e else none

theorem noDupTriples_upsertAll (r : ModelRegistry) (es : List RegistryEntry)
    (hnd : NoDupTriples r.artifacts) :
    NoDupTriples (upsertAll r es).artifacts := by
  induction es generalizing r with
  | nil => exact hnd
  | cons e rest ih => exact ih _ (noDupTriples_upsert r e hnd)

theorem find_upsertAll (r : ModelRegistry) (es : List RegistryEntry)
    (hnd : NoDupTriples r.artifacts) (n f p : String) :
    (upsertAll r es).find n f p =
      match lastMatch es (n, f, p) with
      | some e => some e
      | none => r.find n f p := by
  induction es generalizing r with
  | nil => simp [upsertAll, lastMatch]
  | cons e rest ih =>
    have step : upsertAll r (e :: rest) = upsertAll (r.upsert e) rest := rfl
    rw [step, ih _ (noDupTriples_upsert r e hnd)]
    cases hlm : lastMatch rest (n, f, p) with
    | some x => simp [lastMatch, hlm]
    | none =>
      simp only [lastMatch, hlm]
      by_cases ht : e.triple = (n, f, p)
      · simp only [if_pos ht]
        obtain ⟨h1, h2, h3⟩ := triple_eq_iff.mp ht
        rw [← h1, ← h2, ← h3]
        exact find_upsert_self r e hnd
      · simp only [if_neg ht]
        exact find_upsert_other r e fun hc => ht hc.symm

/-! ## Configuration and task planning (`config.py`, `conversion.py`) -/

/-- `ConversionConfig`. -/
structure ConversionConfig where
  frameworks : List String
  precision : String := "fp32"
  overwrite : Bool := false
  local_cache : String := "artifacts/converted_models"
deriving DecidableEq, Repr

/-- `ModelConfig`. -/
structure ModelConfig where
  name : String
  task : String
  source : String
  revision : String := "main"
  extra_options : List (String × String) := []
deriving DecidableEq, Repr

/-- `ExperimentConfig`. -/
structure ExperimentConfig where
  experiment_name : String
  model_bucket : String
  model_registry : String
  conversion : ConversionConfig
  models : List ModelConfig
deriving DecidableEq, Repr

/-- `ConversionTask`. -/
structure ConversionTask where
  model : ModelConfig
  framework : String
  precision : String
  output_dir : FsPath
deriving DecidableEq, Repr

/-- `Converter.plan_tasks`: nested loop over models then frameworks,
appending one task per pair, with
`output_dir = cache_base / sanitize(name) / framework / precision`. -/
def planTasks (cfg : ExperimentConfig) : List ConversionTask :=
  let cache_base := pathSegs cfg.conversion.local_cache
  cfg.models.flatMap fun model =>
    let model_dir := cache_base ++ [sanitize model.name]
    cfg.conversion.frameworks.map fun fw =>
      { model := model
        framework := fw
        precision := cfg.conversion.precision
        output_dir := model_dir ++ [fw, cfg.conversion.precision] }

/-- The plan as the specification describes it: models in job order, then
frameworks in job order, one task per pair, no filtering, output directory
`cache_root/sanitized_model_name/framework/precision`. -/
def planSpecification (cfg : ExperimentConfig) : List ConversionTask :=
  cfg.models.flatMap fun m =>
    cfg.conversion.frameworks.map fun fw =>
      { model := m
        framework := fw
        precision := cfg.conversion.precision
        output_dir := pathSegs cfg.conversion.local_cache ++
          [sanitize m.name, fw, cfg.conversion.precision] }

/-- The scenario job of the specification: one model `bert-base`, one
framework `onnx-runtime`, precision `fp32`, cache root `cache/`. -/
def scenarioConfig : ExperimentConfig :=
  { experiment_name := "scenario"
    model_bucket := "bucket/models"
    model_registry := "registry.yaml"
    conversion :=
      { frameworks := ["onnx-runtime"]
        precision := "fp32"
        overwrite := false
        local_cache := "cache/" }
    models := [{ name := "bert-base", task := "classification",
                 source := "hf", revision := "main" }] }

/-! ## The save path (`ModelRegistry.save`) as a trace of filesystem steps -/

/-- The elementary filesystem steps `ModelRegistry.save` performs:
`path.parent.mkdir(parents=True)`, `path.open("w")` (which truncates), and
the dump of the serialized document. -/
inductive SaveOp
  | mkdirParents (dir : FsPath)
  | openTruncate (file : FsPath)
  | writeDoc (file : FsPath) (doc : List RegistryEntry)
deriving DecidableEq, Repr

/-- The step trace of one `save` call. -/
def saveOps (r : ModelRegistry) (path : FsPath) : List SaveOp :=
  [.mkdirParents path.dropLast, .openTruncate path, .writeDoc path r.artifacts]

/-- Effect of one step on the observable content of the destination file
(`none` = file absent, `some doc` = file holds that serialized document;
truncation leaves an empty document behind). -/
def applySaveOp (path : FsPath) (content : Option (List RegistryEntry)) :
    SaveOp → Option (List RegistryEntry)
  | .mkdirParents _ => content
  | .openTruncate p => if p = path then some [] else content
  | .writeDoc p doc => if p = path then some doc else content

/-- Every observable content of the destination file during one `save` call,
starting from `prior`. -/
def saveStates (r : ModelRegistry) (path : FsPath)
    (prior : Option (List RegistryEntry)) : List (Option (List RegistryEntry)) :=
  (saveOps r path).scanl (applySaveOp path) prior

/-- Destination content once the `save` call has finished. -/
def saveFinal (r : ModelRegistry) (path : FsPath)
    (prior : Option (List RegistryEntry)) : Option (List RegistryEntry) :=
  (saveOps r path).foldl (applySaveOp path) prior

/-- Atomicity with respect to a single save call, in the specification's
sense: a concurrent reader can only ever observe the prior content or the
final content, never a partial write. -/
@[reducible] def AtomicSave (r : ModelRegistry) (path : FsPath)
    (prior : Option (List RegistryEntry)) : Prop :=
  ∀ c ∈ saveStates r path prior, c = prior ∨ c = saveFinal r path prior

/-! ## `upload_directory` (`s3_utils.py`) -/

/-- One entry produced by `local_path.rglob("*")`: its path relative to the
uploaded directory, and whether it is a directory entry. -/
structure DirEntry where
  rel : List String
  isDir : Bool
deriving DecidableEq, Repr

inductive UploadErr
  | notFound
  | invalidUri
deriving DecidableEq, Repr

/-- `relative.as_posix()`: relative path joined with `/`. -/
def posixRel (rel : List String) : String := String.intercalate "/" rel

/-- The object key for one file:
`f"{prefix.rstrip('/')}/{relative.as_posix()}" if prefix else relative.as_posix()`. -/
def uploadKey (pfx : String) (rel : List String) : String :=
  if pfx ≠ "" then rstripSlash pfx ++ "/" ++ posixRel rel else posixRel rel

/-- `upload_directory`: `none` for a missing local directory; otherwise
partition the bucket URI at the first `/`, reject an empty bucket, upload
every non-directory entry under its key, and return the pairs
`(relative path, key)` together with the returned location string. -/
def upload_directory (dir : Option (List DirEntry)) (bucket_uri : String) :
    Except UploadErr (List (List String × String) × String) :=
  match dir with
  | none => .error .notFound
  | some entries =>
      let parts := partitionSlash bucket_uri
      if parts.1 = "" then .error .invalidUri
      else
        let uploads := (entries.filter fun e => !e.isDir).map fun e =>
          (e.rel, uploadKey parts.2 e.rel)
        let loc := rstripSlash ("s3://" ++ parts.1 ++ "/" ++
          (if parts.2 ≠ "" then rstripSlash parts.2 else ""))
        .ok (uploads, loc)

theorem head?_dropWhile_slash (l : List Char) :
    ∀ c, (l.dropWhile fun x => x = '/').head? = some c → c ≠ '/' := by
  induction l with
  | nil => simp
  | cons x xs ih =>
    intro c h
    rw [List.dropWhile_cons] at h
    split at h
    · exact ih c h
    · rename_i hx
      simp only [List.head?_cons, Option.some.injEq] at h
      subst h
      simpa using hx

/-- Stripping trailing separators leaves no trailing separator. -/
theorem endsWithSlash_rstripSlash (s : String) :
    endsWithSlash (rstripSlash s) = false := by
  unfold endsWithSlash rstripSlash
  simp only [String.toList, String.data]
  rw [decide_eq_false_iff_not, List.getLast?_reverse]
  cases hh : (s.data.reverse.dropWhile fun c => c = '/').head? with
  | none => simp
  | some c =>
    simp only [decide_eq_false_iff_not, Option.some.injEq]
    intro hc
    exact head?_dropWhile_slash _ c hh hc

/-! ## The orchestrator run loop (`Converter.run`)

The local filesystem is modelled at directory granularity: an association
list from directory path to the names of the files it holds. The external
converter subprocess and the S3 upload are oracles (`ConvEnv`): each either
produces a result or raises, exactly at the call boundary `Converter.run`
uses (`_CONVERTERS[...](task)` and `upload_directory(...)`). -/

abbrev DirFs := List (FsPath × List String)

def lookupDir : DirFs → FsPath → Option (List String)
  | [], _ => none
  | (p, files) :: rest, q => if p = q then some files else lookupDir rest q

/-- `shutil.rmtree`: the directory is gone afterwards. -/
def removeDir (fs : DirFs) (q : FsPath) : DirFs :=
  fs.filter fun pr => pr.1 ≠ q

/-- `mkdir(parents=True, exist_ok=True)`: create empty when absent,
untouched when present. -/
def mkdirDir (fs : DirFs) (q : FsPath) : DirFs :=
  match lookupDir fs q with
  | some _ => fs
  | none => fs ++ [(q, [])]

/-- Conversion output landing in a directory: new files are added,
same-named prior files are overwritten, other prior files remain. -/
def writeFiles (fs : DirFs) (q : FsPath) (files : List String) : DirFs :=
  match lookupDir fs q with
  | some old => removeDir fs q ++ [(q, (old.filter fun f => f ∉ files) ++ files)]
  | none => fs ++ [(q, files)]

/-- Keys of `_CONVERTERS`. -/
def knownFrameworks : List String := ["transformers", "onnx-runtime", "openvino"]

/-- Oracles for the two external effects of one task: the conversion tool
(returns the files it wrote, or a raised error) and the S3 upload (returns
the S3 URI, or a raised error). -/
structure ConvEnv where
  convert : ConversionTask → Except String (List String)
  upload : ConversionTask → Except String String

/-- Orchestrator-visible state: in-memory registry, persisted registry file
content (`none` = never saved here), local filesystem. -/
structure RunState where
  registry : ModelRegistry
  savedFile : Option ModelRegistry
  fs : DirFs
deriving DecidableEq, Repr

/-- What `Converter.run` did for one task. `converted` is emitted exactly
when the converter for the framework is invoked. -/
inductive RunEvent
  | skipped (t : ConversionTask)
  | converted (t : ConversionTask)
deriving DecidableEq, Repr

/-- The exceptions `Converter.run` can propagate. -/
inductive RunErr
  | unknownFramework (fw : String)
  | toolError (msg : String)
  | storeError (msg : String)
deriving DecidableEq, Repr

/-- The body of the `for task in tasks` loop of `Converter.run`. -/
def runTask (upload : Bool) (cfg : ExperimentConfig) (env : ConvEnv)
    (st : RunState) (t : ConversionTask) :
    RunState × List RunEvent × Option RunErr :=
  let hit := st.registry.find t.model.name t.framework t.precision
  if hit.isSome ∧ cfg.conversion.overwrite = false then
    (st, [.skipped t], none)
  else
    let fs1 := if (lookupDir st.fs t.output_dir).isSome ∧
        cfg.conversion.overwrite = true then removeDir st.fs t.output_dir
      else st.fs
    let fs2 := mkdirDir fs1 t.output_dir
    if t.framework ∈ knownFrameworks then
      match env.convert t with
      | .error msg => ({ st with fs := fs2 }, [.converted t], some (.toolError msg))
      | .ok files =>
          let fs3 := writeFiles fs2 t.output_dir files
          match (if upload then (env.upload t).map some else .ok none) with
          | .error msg =>
              ({ st with fs := fs3 }, [.converted t], some (.storeError msg))
          | .ok uri =>
              let entry : RegistryEntry :=
                { model_name := t.model.name
                  framework := t.framework
                  precision := t.precision
                  task := t.model.task
                  revision := t.model.revision
                  local_path := String.intercalate "/" t.output_dir
                  s3_uri := uri }
              let reg := st.registry.upsert entry
              ({ registry := reg, savedFile := some reg, fs := fs3 },
                [.converted t], none)
    else ({ st with fs := fs2 }, [], some (.unknownFramework t.framework))

/-- The task loop: stop at the first propagated exception. -/
def runTasks (upload : Bool) (cfg : ExperimentConfig) (env : ConvEnv) :
    RunState → List ConversionTask → RunState × List RunEvent × Option RunErr
  | st, [] => (st, [], none)
  | st, t :: ts =>
      match runTask upload cfg env st t with
      | (st1, evs, some e) => (st1, evs, some e)
      | (st1, evs, none) =>
          let r := runTasks upload cfg env st1 ts
          (r.1, evs ++ r.2.1, r.2.2)

/-- `Converter.run`: plan the tasks, create the cache root, execute. -/
def converterRun (upload : Bool) (cfg : ExperimentConfig) (env : ConvEnv)
    (st : RunState) : RunState × List RunEvent × Option RunErr :=
  runTasks upload cfg env
    { st with fs := mkdirDir st.fs (pathSegs cfg.conversion.local_cache) }
    (planTasks cfg)

/-! ## Run-loop lemmas -/

theorem findEntry_append_self_isSome (l : List RegistryEntry)
    {e : RegistryEntry} {n f p : String}
    (h : e.model_name = n ∧ e.framework = f ∧ e.precision = p) :
    (findEntry (l ++ [e]) n f p).isSome := by
  rw [findEntry_append]
  cases hl : findEntry l n f p with
  | some x => simp
  | none => simp [findEntry, h]

theorem find_upsert_self_isSome (r : ModelRegistry) (e : RegistryEntry) :
    ((r.upsert e).find e.model_name e.framework e.precision).isSome := by
  unfold ModelRegistry.upsert ModelRegistry.find
  split
  · exact findEntry_append_self_isSome _ ⟨rfl, rfl, rfl⟩
  · exact findEntry_append_self_isSome _ ⟨rfl, rfl, rfl⟩

theorem find_upsert_isSome_mono (r : ModelRegistry) (e : RegistryEntry)
    {n f p : String} (h : (r.find n f p).isSome) :
    ((r.upsert e).find n f p).isSome := by
  by_cases hq : (n, f, p) = e.triple
  · obtain ⟨h1, h2, h3⟩ := triple_eq_iff.mp hq.symm
    unfold ModelRegistry.upsert ModelRegistry.find
    split <;> exact findEntry_append_self_isSome _ ⟨h1, h2, h3⟩
  · rw [find_upsert_other r e hq]
    exact h

theorem runTask_registry_cases (upload : Bool) (cfg : ExperimentConfig)
    (env : ConvEnv) (st : RunState) (t : ConversionTask) :
    (runTask upload cfg env st t).1.registry = st.registry ∨
      ∃ e, (runTask upload cfg env st t).1.registry = st.registry.upsert e := by
  unfold runTask
  dsimp only
  split
  · exact Or.inl rfl
  · split
    · split
      · exact Or.inl rfl
      · split
        · exact Or.inl rfl
        · exact Or.inr ⟨_, rfl⟩
    · exact Or.inl rfl

theorem runTask_presence_mono (upload : Bool) (cfg : ExperimentConfig)
    (env : ConvEnv) (st : RunState) (t : ConversionTask) {n f p : String}
    (h : (st.registry.find n f p).isSome) :
    ((runTask upload cfg env st t).1.registry.find n f p).isSome := by
  rcases runTask_registry_cases upload cfg env st t with heq | ⟨e, heq⟩
  · rw [heq]; exact h
  · rw [heq]; exact find_upsert_isSome_mono _ _ h

theorem runTask_success_self (upload : Bool) (cfg : ExperimentConfig)
    (env : ConvEnv) (st : RunState) (t : ConversionTask)
    (h : (runTask upload cfg env st t).2.2 = none) :
    ((runTask upload cfg env st t).1.registry.find
      t.model.name t.framework t.precision).isSome := by
  revert h
  unfold runTask
  dsimp only
  split
  · rename_i hcond
    intro _
    exact hcond.1
  · split
    · split
      · intro h; simp at h
      · split
        · intro h; simp at h
        · intro _
          exact find_upsert_self_isSome st.registry _
    · intro h; simp at h

theorem runTask_err_preserves (upload : Bool) (cfg : ExperimentConfig)
    (env : ConvEnv) (st : RunState) (t : ConversionTask)
    (h : (runTask upload cfg env st t).2.2 ≠ none) :
    (runTask upload cfg env st t).1.registry = st.registry ∧
      (runTask upload cfg env st t).1.savedFile = st.savedFile := by
  revert h
  unfold runTask
  dsimp only
  split
  · intro h; simp at h
  · split
    · split
      · intro _; exact ⟨rfl, rfl⟩
      · split
        · intro _; exact ⟨rfl, rfl⟩
        · intro h; simp at h
    · intro _; exact ⟨rfl, rfl⟩

theorem runTask_skip (upload : Bool) (cfg : ExperimentConfig) (env : ConvEnv)
    (st : RunState) (t : ConversionTask)
    (hhit : (st.registry.find t.model.name t.framework t.precision).isSome)
    (hov : cfg.conversion.overwrite = false) :
    runTask upload cfg env st t = (st, [.skipped t], none) := by
  unfold runTask
  dsimp only
  rw [if_pos ⟨hhit, hov⟩]

theorem runTasks_cons (upload : Bool) (cfg : ExperimentConfig) (env : ConvEnv)
    (st : RunState) (t : ConversionTask) (ts : List ConversionTask) :
    runTasks upload cfg env st (t :: ts) =
      (match runTask upload cfg env st t with
       | (st1, evs, some e) => (st1, evs, some e)
       | (st1, evs, none) =>
          ((runTasks upload cfg env st1 ts).1,
            evs ++ (runTasks upload cfg env st1 ts).2.1,
            (runTasks upload cfg env st1 ts).2.2)) := rfl

theorem runTasks_presence_mono (upload : Bool) (cfg : ExperimentConfig)
    (env : ConvEnv) (ts : List ConversionTask) (st : RunState)
    {n f p : String} (h : (st.registry.find n f p).isSome) :
    ((runTasks upload cfg env st ts).1.registry.find n f p).isSome := by
  induction ts generalizing st with
  | nil => exact h
  | cons t ts ih =>
    unfold runTasks
    rcases hrt : runTask upload cfg env st t with ⟨st1, evs, err⟩
    have h1 : (st1.registry.find n f p).isSome := by
      have := runTask_presence_mono upload cfg env st t h
      rw [hrt] at this
      exact this
    cases err with
    | some e => exact h1
    | none => exact ih st1 h1

theorem runTasks_success_all_present (upload : Bool) (cfg : ExperimentConfig)
    (env : ConvEnv) (ts : List ConversionTask) (st : RunState)
    (h : (runTasks upload cfg env st ts).2.2 = none) :
    ∀ t ∈ ts, ((runTasks upload cfg env st ts).1.registry.find
      t.model.name t.framework t.precision).isSome := by
  induction ts generalizing st with
  | nil => simp
  | cons t ts ih =>
    intro x hx
    rcases hrt : runTask upload cfg env st t with ⟨st1, evs, err⟩
    cases err with
    | some e =>
      exfalso
      unfold runTasks at h
      rw [hrt] at h
      simp at h
    | none =>
      have hrun : runTasks upload cfg env st (t :: ts) =
          ((runTasks upload cfg env st1 ts).1,
            evs ++ (runTasks upload cfg env st1 ts).2.1,
            (runTasks upload cfg env st1 ts).2.2) := by
        rw [runTasks_cons, hrt]
      rw [hrun] at h ⊢
      dsimp only at h ⊢
      rcases List.mem_cons.mp hx with rfl | hx'
      · have hself := runTask_success_self upload cfg env st x (by rw [hrt])
        rw [hrt] at hself
        exact runTasks_presence_mono upload cfg env ts st1 hself
      · exact ih st1 h x hx'

theorem runTasks_all_skip (upload : Bool) (cfg : ExperimentConfig)
    (env : ConvEnv) (ts : List ConversionTask) (st : RunState)
    (hov : cfg.conversion.overwrite = false)
    (h : ∀ t ∈ ts, ((st.registry.find t.model.name t.framework t.precision)).isSome) :
    runTasks upload cfg env st ts = (st, ts.map .skipped, none) := by
  induction ts with
  | nil => simp [runTasks]
  | cons t ts ih =>
    rw [runTasks_cons,
      runTask_skip upload cfg env st t (h t (List.mem_cons_self t ts)) hov]
    dsimp only
    rw [ih fun x hx => h x (List.mem_cons_of_mem t hx)]
    simp

theorem runTasks_append (upload : Bool) (cfg : ExperimentConfig)
    (env : ConvEnv) (pre post : List ConversionTask) (st st1 : RunState)
    (evs : List RunEvent)
    (hpre : runTasks upload cfg env st pre = (st1, evs, none)) :
    runTasks upload cfg env st (pre ++ post) =
      ((runTasks upload cfg env st1 post).1,
        evs ++ (runTasks upload cfg env st1 post).2.1,
        (runTasks upload cfg env st1 post).2.2) := by
  induction pre generalizing st evs with
  | nil =>
    unfold runTasks at hpre
    cases hpre
    simp
  | cons t ts ih =>
    rcases hrt : runTask upload cfg env st t with ⟨sta, evsa, err⟩
    rw [runTasks_cons, hrt] at hpre
    cases err with
    | some e => simp at hpre
    | none =>
      dsimp only at hpre
      rcases hrest : runTasks upload cfg env sta ts with ⟨stb, evsb, errb⟩
      rw [hrest] at hpre
      dsimp only at hpre
      rw [Prod.mk.injEq, Prod.mk.injEq] at hpre
      obtain ⟨hstb, hevs, herrb⟩ := hpre
      subst hstb
      subst herrb
      have happ := ih sta evsb hrest
      rw [show (t :: ts) ++ post = t :: (ts ++ post) from rfl,
        runTasks_cons, hrt]
      dsimp only
      rw [happ]
      dsimp only
      rw [← hevs, List.append_assoc]

/-! ## Filesystem lemmas -/

theorem lookupDir_append (l₁ l₂ : DirFs) (q : FsPath) :
    lookupDir (l₁ ++ l₂) q =
      match lookupDir l₁ q with
      | some x => some x
      | none => lookupDir l₂ q := by
  induction l₁ with
  | nil => simp [lookupDir]
  | cons pr rest ih =>
    rcases pr with ⟨p, files⟩
    simp only [List.cons_append, lookupDir]
    split <;> simp [ih]

theorem lookupDir_removeDir_self (fs : DirFs) (q : FsPath) :
    lookupDir (removeDir fs q) q = none := by
  induction fs with
  | nil => rfl
  | cons pr rest ih =>
    rcases pr with ⟨p, files⟩
    simp only [removeDir, List.filter]
    split
    · rename_i hp
      simp only [lookupDir]
      rw [if_neg (by simpa using hp)]
      exact ih
    · exact ih

theorem lookupDir_mkdirDir_absent (fs : DirFs) (q : FsPath)
    (h : lookupDir fs q = none) :
    lookupDir (mkdirDir fs q) q = some [] := by
  unfold mkdirDir
  rw [h]
  rw [lookupDir_append, h]
  simp [lookupDir]

/-- Purging, recreating and writing fresh output leaves exactly the fresh
files in the directory, whatever it held before. -/
theorem purge_then_write (fs : DirFs) (q : FsPath) (files : List String) :
    lookupDir (writeFiles (mkdirDir (removeDir fs q) q) q files) q =
      some files := by
  have h1 : lookupDir (removeDir fs q) q = none := lookupDir_removeDir_self fs q
  have h2 : lookupDir (mkdirDir (removeDir fs q) q) q = some [] :=
    lookupDir_mkdirDir_absent _ _ h1
  unfold writeFiles
  rw [h2, lookupDir_append, lookupDir_removeDir_self]
  simp [lookupDir]

/-- After the converter writes its files, every one of them is present in
the output directory. -/
theorem writeFiles_mem (fs : DirFs) (q : FsPath) (files : List String) :
    ∃ c, lookupDir (writeFiles fs q files) q = some c ∧ ∀ f ∈ files, f ∈ c := by
  unfold writeFiles
  cases h : lookupDir fs q with
  | none =>
    refine ⟨files, ?_, fun f hf => hf⟩
    rw [lookupDir_append, h]
    simp [lookupDir]
  | some old =>
    refine ⟨(old.filter fun f => f ∉ files) ++ files, ?_, ?_⟩
    · rw [lookupDir_append, lookupDir_removeDir_self]
      simp [lookupDir]
    · intro f hf
      exact List.mem_append_right _ hf

/-! ## Concrete fixtures for witnesses and counterexamples -/

/-- A concrete registry entry. -/
def entA : RegistryEntry :=
  { model_name := "bert-base", framework := "onnx-runtime", precision := "fp32"
    task := "classification", revision := "main", local_path := "a" }

/-- Same triple as `entA`, different payload. -/
def entB : RegistryEntry := { entA with local_path := "b" }

/-- Same triple as `entA`, yet another payload. -/
def entC : RegistryEntry := { entA with local_path := "c" }

/-- A concrete model. -/
def modelBert : ModelConfig :=
  { name := "bert-base", task := "classification", source := "hf" }

/-- Blank starting state: empty registry, never saved, empty filesystem. -/
def st0Empty : RunState := { registry := {}, savedFile := none, fs := [] }

/-! ## Claim theorems -/

/-- C1 counterexample: starting from a registry that already holds two
entries for the same (model, framework, precision) triple, an upsert of
that triple removes only the entry `find` returned, so the result still
holds two entries for the triple, and `find` does not return the entry of
the most recent upsert. -/
theorem upsert_dedup_fails_on_preduplicated_registry :
    ¬ NoDupTriples (upsertAll { artifacts := [entA, entB] } [entC]).artifacts ∧
    (upsertAll { artifacts := [entA, entB] } [entC]).find
      "bert-base" "onnx-runtime" "fp32" ≠ some entC := by
  decide

/-- C1 (amended): starting from any registry in which each triple occurs at
most once — in particular the empty registry a fresh run begins with —
every sequence of upserts preserves that uniqueness, and `find` on a triple
returns the entry of the most recent upsert for it (or the original entry
when the sequence never touched the triple). -/
theorem upsert_dedup_invariant (r : ModelRegistry) (es : List RegistryEntry)
    (hnd : NoDupTriples r.artifacts) :
    NoDupTriples (upsertAll r es).artifacts ∧
    ∀ n f p, (upsertAll r es).find n f p =
      match lastMatch es (n, f, p) with
      | some e => some e
      | none => r.find n f p :=
  ⟨noDupTriples_upsertAll r es hnd, fun n f p => find_upsertAll r es hnd n f p⟩

/-- C1 witness: the dedup invariant at a concrete registry and upsert
sequence. -/
theorem upsert_dedup_invariant_witness :
    NoDupTriples (upsertAll { artifacts := [] } [entA, entC]).artifacts ∧
    ∀ n f p, (upsertAll { artifacts := [] } [entA, entC]).find n f p =
      match lastMatch [entA, entC] (n, f, p) with
      | some e => some e
      | none => ModelRegistry.find { artifacts := [] } n f p :=
  upsert_dedup_invariant { artifacts := [] } [entA, entC] List.Pairwise.nil

/-- C4 counterexample: `ModelRegistry.save` opens the destination with mode
`"w"` and writes in place, so between the truncation and the dump a
concurrent reader observes an empty document that is neither the prior nor
the final content — the call is not atomic. -/
theorem save_not_atomic_cex :
    ¬ AtomicSave { artifacts := [entA] } ["registry.yaml"] none := by
  decide

/-- C4 (amended): every `save` call serializes the full in-memory
collection, creates parent directories, and overwrites the destination —
but it does so by truncating the destination and writing in place, so for
any non-trivial registry a partial (empty) state is observable by a
concurrent reader: the call is not atomic. -/
theorem save_serializes_fully_but_not_atomic (r : ModelRegistry)
    (path : FsPath) (prior : Option (List RegistryEntry))
    (hne : r.artifacts ≠ []) (hpr : prior ≠ some []) :
    saveFinal r path prior = some r.artifacts ∧
    SaveOp.mkdirParents path.dropLast ∈ saveOps r path ∧
    ¬ AtomicSave r path prior := by
  refine ⟨?_, ?_, ?_⟩
  · simp [saveFinal, saveOps, applySaveOp]
  · simp [saveOps]
  · intro hat
    have hmem : (some ([] : List RegistryEntry)) ∈ saveStates r path prior := by
      simp [saveStates, saveOps, List.scanl, applySaveOp]
    rcases hat _ hmem with h | h
    · exact hpr h.symm
    · rw [show saveFinal r path prior = some r.artifacts by
        simp [saveFinal, saveOps, applySaveOp]] at h
      exact hne (Option.some.injEq .. ▸ h).symm

/-- C4 witness: the amended save property at a concrete registry. -/
theorem save_serializes_fully_but_not_atomic_witness :
    saveFinal { artifacts := [entA] } ["registry.yaml"] none =
      some [entA] ∧
    SaveOp.mkdirParents [] ∈ saveOps { artifacts := [entA] } ["registry.yaml"] ∧
    ¬ AtomicSave { artifacts := [entA] } ["registry.yaml"] none :=
  save_serializes_fully_but_not_atomic { artifacts := [entA] }
    ["registry.yaml"] none (by decide) (by decide)

/-- C6: `plan_tasks` is the deterministic nested iteration the specification
describes — models in job order, then frameworks in job order, one task per
pair, no filtering, output directory
`cache_root/sanitized_model_name/framework/precision` with `/` in the model
identifier replaced by `-`; and on the scenario job (one model `bert-base`,
frameworks `[onnx-runtime]`, precision `fp32`, cache `cache/`) it yields
exactly one task with output directory `cache/bert-base/onnx-runtime/fp32`. -/
theorem plan_deterministic_and_paths (cfg : ExperimentConfig) :
    planTasks cfg = planSpecification cfg ∧
    planTasks scenarioConfig =
      [{ model := modelBert, framework := "onnx-runtime", precision := "fp32"
         output_dir := ["cache", "bert-base", "onnx-runtime", "fp32"] }] ∧
    String.intercalate "/" ["cache", "bert-base", "onnx-runtime", "fp32"] =
      "cache/bert-base/onnx-runtime/fp32" ∧
    sanitize "org/model" = "org-model" := by
  refine ⟨?_, by decide, by decide, by decide⟩
  simp [planTasks, planSpecification, List.append_assoc]

/-- C9: loading the registry from a path at which no file exists returns an
empty registry and never an error. -/
theorem from_path_absent_returns_empty
    (fs : FsPath → Option (Except LoadErr (List RegistryEntry)))
    (p : FsPath) (h : fs p = none) :
    fromPathAt fs p = .ok ({} : ModelRegistry) := by
  rw [fromPathAt, h]
  rfl

/-- C9 witness: loading from a concrete absent path. -/
theorem from_path_absent_returns_empty_witness :
    fromPathAt (fun _ => none) ["registry.yaml"] = .ok ({} : ModelRegistry) :=
  from_path_absent_returns_empty (fun _ => none) ["registry.yaml"] rfl

/-- Oracles where both external effects succeed. -/
def envOkW : ConvEnv :=
  { convert := fun _ => .ok ["model.onnx"]
    upload := fun _ => .ok "s3://bucket/x" }

/-- C2: if a run with `overwrite = false` finishes without an exception,
running the same job again performs zero converter invocations — every
task is skipped because its triple is now registered — and leaves both the
in-memory registry and its persisted file exactly as the first run left
them. -/
theorem converter_run_idempotent (upload : Bool) (cfg : ExperimentConfig)
    (env : ConvEnv) (st0 st1 : RunState)
    (hov : cfg.conversion.overwrite = false)
    (hsucc : (converterRun upload cfg env st0).2.2 = none)
    (hst1 : st1 = (converterRun upload cfg env st0).1) :
    (converterRun upload cfg env st1).2.1 =
      (planTasks cfg).map RunEvent.skipped ∧
    (∀ t, RunEvent.converted t ∉ (converterRun upload cfg env st1).2.1) ∧
    (converterRun upload cfg env st1).1.registry = st1.registry ∧
    (converterRun upload cfg env st1).1.savedFile = st1.savedFile ∧
    (converterRun upload cfg env st1).2.2 = none := by
  subst hst1
  have h2 : converterRun upload cfg env (converterRun upload cfg env st0).1 =
      ({ (converterRun upload cfg env st0).1 with
          fs := mkdirDir (converterRun upload cfg env st0).1.fs
            (pathSegs cfg.conversion.local_cache) },
        (planTasks cfg).map RunEvent.skipped, none) :=
    runTasks_all_skip upload cfg env (planTasks cfg) _ hov
      (runTasks_success_all_present upload cfg env (planTasks cfg)
        { st0 with fs := mkdirDir st0.fs (pathSegs cfg.conversion.local_cache) }
        hsucc)
  rw [h2]
  refine ⟨rfl, ?_, rfl, rfl, rfl⟩
  intro t ht
  simp at ht

/-- C2 witness: the scenario job run twice from a blank state. -/
theorem converter_run_idempotent_witness :
    (converterRun false scenarioConfig envOkW
        (converterRun false scenarioConfig envOkW st0Empty).1).2.1 =
      (planTasks scenarioConfig).map RunEvent.skipped ∧
    (∀ t, RunEvent.converted t ∉
      (converterRun false scenarioConfig envOkW
        (converterRun false scenarioConfig envOkW st0Empty).1).2.1) ∧
    (converterRun false scenarioConfig envOkW
        (converterRun false scenarioConfig envOkW st0Empty).1).1.registry =
      (converterRun false scenarioConfig envOkW st0Empty).1.registry ∧
    (converterRun false scenarioConfig envOkW
        (converterRun false scenarioConfig envOkW st0Empty).1).1.savedFile =
      (converterRun false scenarioConfig envOkW st0Empty).1.savedFile ∧
    (converterRun false scenarioConfig envOkW
        (converterRun false scenarioConfig envOkW st0Empty).1).2.2 = none :=
  converter_run_idempotent false scenarioConfig envOkW st0Empty
    (converterRun false scenarioConfig envOkW st0Empty).1 rfl (by decide) rfl

/-- A one-model, one-framework job over the `transformers` converter. -/
def cfgTransformers : ExperimentConfig :=
  { experiment_name := "exp"
    model_bucket := "bucket"
    model_registry := "registry.yaml"
    conversion :=
      { frameworks := ["transformers"], precision := "fp32"
        overwrite := false, local_cache := "cache" }
    models := [modelBert] }

/-- The single task `cfgTransformers` plans. -/
def taskTrans : ConversionTask :=
  { model := modelBert, framework := "transformers", precision := "fp32"
    output_dir := ["cache", "bert-base", "transformers", "fp32"] }

/-- Oracles where conversion succeeds and the upload raises. -/
def envUploadFail : ConvEnv :=
  { convert := fun _ => .ok ["pytorch_model.bin"]
    upload := fun _ => .error "network unreachable" }

/-- Oracles where the conversion tool itself raises. -/
def envConvFail : ConvEnv :=
  { convert := fun _ => .error "conversion failed"
    upload := fun _ => .ok "s3://bucket/x" }

/-- The state after `Converter.run` has created the cache root from a blank
state with cache `cache`. -/
def stCacheMade : RunState :=
  { registry := {}, savedFile := none, fs := [(["cache"], [])] }

/-- C3 counterexample: when the remote publish raises after a successful
local conversion, the exception propagates before the upsert, so no
RegistryEntry at all is recorded for the task — the claim's "still upserts
with an absent remote location" does not happen. -/
theorem publish_failure_no_upsert_cex :
    (converterRun true cfgTransformers envUploadFail st0Empty).1.registry.find
      "bert-base" "transformers" "fp32" = none ∧
    (converterRun true cfgTransformers envUploadFail st0Empty).1.registry.artifacts
      = [] ∧
    (converterRun true cfgTransformers envUploadFail st0Empty).2.2 =
      some (.storeError "network unreachable") := by
  decide

/-- C3 (amended): when the remote publish raises after a successful local
conversion, `Converter.run` aborts with that store error and upserts
nothing: in-memory registry and persisted file are unchanged for that task;
the local conversion output stays on disk but is not recorded. -/
theorem publish_failure_aborts_without_upsert
    (upload : Bool) (cfg : ExperimentConfig) (env : ConvEnv) (st : RunState)
    (t : ConversionTask) (files : List String) (msg : String)
    (hupload : upload = true)
    (hknown : t.framework ∈ knownFrameworks)
    (hns : ¬((st.registry.find t.model.name t.framework t.precision).isSome ∧
      cfg.conversion.overwrite = false))
    (hconv : env.convert t = .ok files)
    (hup : env.upload t = .error msg) :
    (runTask upload cfg env st t).1.registry = st.registry ∧
    (runTask upload cfg env st t).1.savedFile = st.savedFile ∧
    (runTask upload cfg env st t).2.2 = some (.storeError msg) ∧
    ∃ c, lookupDir (runTask upload cfg env st t).1.fs t.output_dir = some c ∧
      ∀ f ∈ files, f ∈ c := by
  subst hupload
  have hscrut : (if (true : Bool) then (env.upload t).map some
      else Except.ok none) = Except.error msg := by
    rw [hup]
    rfl
  unfold runTask
  dsimp only
  rw [if_neg hns, if_pos hknown, hconv]
  dsimp only
  rw [hscrut]
  exact ⟨rfl, rfl, rfl, writeFiles_mem _ _ _⟩

/-- C3 witness: the amended publish-failure behaviour at the concrete
transformers job. -/
theorem publish_failure_aborts_without_upsert_witness :
    (runTask true cfgTransformers envUploadFail st0Empty taskTrans).1.registry =
      st0Empty.registry ∧
    (runTask true cfgTransformers envUploadFail st0Empty taskTrans).1.savedFile =
      st0Empty.savedFile ∧
    (runTask true cfgTransformers envUploadFail st0Empty taskTrans).2.2 =
      some (.storeError "network unreachable") ∧
    ∃ c, lookupDir
        (runTask true cfgTransformers envUploadFail st0Empty taskTrans).1.fs
        taskTrans.output_dir = some c ∧
      ∀ f ∈ ["pytorch_model.bin"], f ∈ c :=
  publish_failure_aborts_without_upsert true cfgTransformers envUploadFail
    st0Empty taskTrans ["pytorch_model.bin"] "network unreachable"
    rfl (by decide) (by decide) rfl rfl

/-- C10: if the conversion step or the upload step of a task raises,
`Converter.run` performs no upsert and no save for that task: the final
in-memory registry and the persisted registry file are exactly those left
by the successfully completed earlier tasks, and the error is the one the
failing task raised. -/
theorem task_failure_preserves_registry_and_file
    (upload : Bool) (cfg : ExperimentConfig) (env : ConvEnv)
    (st0 st1 : RunState) (pre post : List ConversionTask) (t : ConversionTask)
    (evs : List RunEvent) (m : String)
    (hplan : planTasks cfg = pre ++ t :: post)
    (hpre : runTasks upload cfg env
      { st0 with fs := mkdirDir st0.fs (pathSegs cfg.conversion.local_cache) }
      pre = (st1, evs, none))
    (hfail : (runTask upload cfg env st1 t).2.2 = some (.toolError m) ∨
      (runTask upload cfg env st1 t).2.2 = some (.storeError m)) :
    (converterRun upload cfg env st0).1.registry = st1.registry ∧
    (converterRun upload cfg env st0).1.savedFile = st1.savedFile ∧
    (converterRun upload cfg env st0).2.2 =
      (runTask upload cfg env st1 t).2.2 := by
  have herr : (runTask upload cfg env st1 t).2.2 ≠ none := by
    rcases hfail with h | h <;> simp [h]
  have hpres := runTask_err_preserves upload cfg env st1 t herr
  have hrun : converterRun upload cfg env st0 =
      ((runTasks upload cfg env st1 (t :: post)).1,
        evs ++ (runTasks upload cfg env st1 (t :: post)).2.1,
        (runTasks upload cfg env st1 (t :: post)).2.2) := by
    unfold converterRun
    rw [hplan]
    exact runTasks_append upload cfg env pre (t :: post) _ st1 evs hpre
  rcases hrt : runTask upload cfg env st1 t with ⟨sta, evsa, err⟩
  rw [hrt] at hpres
  have herr' : err ≠ none := by
    rw [hrt] at herr
    exact herr
  cases err with
  | none => exact absurd rfl herr'
  | some e' =>
    have hcons : runTasks upload cfg env st1 (t :: post) =
        (sta, evsa, some e') := by
      rw [runTasks_cons, hrt]
    rw [hrun, hcons]
    exact ⟨hpres.1, hpres.2, rfl⟩

/-- C10 witness: a failing conversion with no earlier tasks leaves the
blank registry and saved file untouched. -/
theorem task_failure_preserves_registry_and_file_witness :
    (converterRun false cfgTransformers envConvFail st0Empty).1.registry =
      stCacheMade.registry ∧
    (converterRun false cfgTransformers envConvFail st0Empty).1.savedFile =
      stCacheMade.savedFile ∧
    (converterRun false cfgTransformers envConvFail st0Empty).2.2 =
      (runTask false cfgTransformers envConvFail stCacheMade taskTrans).2.2 :=
  task_failure_preserves_registry_and_file false cfgTransformers envConvFail
    st0Empty stCacheMade [] [] taskTrans [] "conversion failed"
    (by decide) rfl (Or.inl (by decide))

/-- A job whose second framework has no converter variant. -/
def cfgTwoFw : ExperimentConfig :=
  { cfgTransformers with
      conversion :=
        { frameworks := ["transformers", "tensorrt"], precision := "fp32"
          overwrite := false, local_cache := "cache" } }

/-- A job whose only framework has no converter variant. -/
def cfgUnknownOnly : ExperimentConfig :=
  { cfgTransformers with
      conversion :=
        { frameworks := ["tensorrt"], precision := "fp32"
          overwrite := false, local_cache := "cache" } }

/-- The single task `cfgUnknownOnly` plans. -/
def taskUnknown : ConversionTask :=
  { model := modelBert, framework := "tensorrt", precision := "fp32"
    output_dir := ["cache", "bert-base", "tensorrt", "fp32"] }

/-- C5 counterexample: with frameworks `["transformers", "tensorrt"]` the
unknown-framework error is only raised when execution reaches the second
task — by then the first task has been converted and its registry entry
recorded, so the run does not abort before any task runs. -/
theorem unknown_framework_check_not_upfront_cex :
    (converterRun false cfgTwoFw envOkW st0Empty).2.2 =
      some (.unknownFramework "tensorrt") ∧
    (converterRun false cfgTwoFw envOkW st0Empty).1.registry.artifacts ≠ [] ∧
    RunEvent.converted taskTrans ∈
      (converterRun false cfgTwoFw envOkW st0Empty).2.1 := by
  decide

/-- C5 (amended): a job referencing an unknown framework fails with an
error when execution reaches the first non-skipped task for that
framework; conversions and registry updates of tasks earlier in plan order
have already happened and are retained, the failing task itself performs no
conversion and leaves registry and persisted file unchanged. -/
theorem unknown_framework_aborts_at_its_task
    (upload : Bool) (cfg : ExperimentConfig) (env : ConvEnv)
    (st0 st1 : RunState) (pre post : List ConversionTask) (t : ConversionTask)
    (evs : List RunEvent)
    (hplan : planTasks cfg = pre ++ t :: post)
    (hpre : runTasks upload cfg env
      { st0 with fs := mkdirDir st0.fs (pathSegs cfg.conversion.local_cache) }
      pre = (st1, evs, none))
    (hunk : t.framework ∉ knownFrameworks)
    (hns : ¬((st1.registry.find t.model.name t.framework t.precision).isSome ∧
      cfg.conversion.overwrite = false)) :
    (converterRun upload cfg env st0).2.2 =
      some (.unknownFramework t.framework) ∧
    (converterRun upload cfg env st0).1.registry = st1.registry ∧
    (converterRun upload cfg env st0).1.savedFile = st1.savedFile ∧
    (converterRun upload cfg env st0).2.1 = evs := by
  obtain ⟨fsx, hrt⟩ : ∃ fsx, runTask upload cfg env st1 t =
      ({ st1 with fs := fsx }, [], some (.unknownFramework t.framework)) := by
    refine ⟨mkdirDir
      (if (lookupDir st1.fs t.output_dir).isSome ∧
          cfg.conversion.overwrite = true then removeDir st1.fs t.output_dir
        else st1.fs) t.output_dir, ?_⟩
    unfold runTask
    dsimp only
    rw [if_neg hns, if_neg hunk]
  have hcons : runTasks upload cfg env st1 (t :: post) =
      ({ st1 with fs := fsx }, [], some (.unknownFramework t.framework)) := by
    rw [runTasks_cons, hrt]
  have hrun : converterRun upload cfg env st0 =
      ((runTasks upload cfg env st1 (t :: post)).1,
        evs ++ (runTasks upload cfg env st1 (t :: post)).2.1,
        (runTasks upload cfg env st1 (t :: post)).2.2) := by
    unfold converterRun
    rw [hplan]
    exact runTasks_append upload cfg env pre (t :: post) _ st1 evs hpre
  rw [hrun, hcons]
  exact ⟨rfl, rfl, rfl, List.append_nil evs⟩

/-- C5 witness: a job whose only framework is unknown fails at its first
task with nothing converted and nothing recorded. -/
theorem unknown_framework_aborts_at_its_task_witness :
    (converterRun false cfgUnknownOnly envOkW st0Empty).2.2 =
      some (.unknownFramework "tensorrt") ∧
    (converterRun false cfgUnknownOnly envOkW st0Empty).1.registry =
      stCacheMade.registry ∧
    (converterRun false cfgUnknownOnly envOkW st0Empty).1.savedFile =
      stCacheMade.savedFile ∧
    (converterRun false cfgUnknownOnly envOkW st0Empty).2.1 = [] :=
  unknown_framework_aborts_at_its_task false cfgUnknownOnly envOkW
    st0Empty stCacheMade [] [] taskUnknown [] (by decide) rfl
    (by decide) (by decide)

/-- A registry entry recording a prior `transformers` conversion. -/
def entTrans : RegistryEntry :=
  { model_name := "bert-base", framework := "transformers", precision := "fp32"
    task := "classification", revision := "main"
    local_path := "cache/bert-base/transformers/fp32" }

/-- The transformers job with `overwrite = true`. -/
def cfgOverwrite : ExperimentConfig :=
  { cfgTransformers with
      conversion :=
        { frameworks := ["transformers"], precision := "fp32"
          overwrite := true, local_cache := "cache" } }

/-- A state where `taskTrans` is registered and its output directory holds
stale output including a sentinel file. -/
def stWithSentinel : RunState :=
  { registry := { artifacts := [entTrans] }
    savedFile := none
    fs := [(["cache", "bert-base", "transformers", "fp32"],
            ["old.bin", "sentinel.txt"])] }

/-- C7: with `overwrite = true`, a task whose triple is registered and
whose output directory already exists gets that directory removed entirely
before conversion: afterwards the directory holds exactly the fresh
conversion output, so no file of the prior output — e.g. a sentinel —
survives (purge, not merge). -/
theorem overwrite_purges_output_dir
    (upload : Bool) (cfg : ExperimentConfig) (env : ConvEnv) (st : RunState)
    (t : ConversionTask) (prior files : List String) (sentinel : String)
    (hov : cfg.conversion.overwrite = true)
    (hhit : (st.registry.find t.model.name t.framework t.precision).isSome)
    (hdir : lookupDir st.fs t.output_dir = some prior)
    (hsent : sentinel ∈ prior)
    (hfresh : sentinel ∉ files)
    (hknown : t.framework ∈ knownFrameworks)
    (hconv : env.convert t = .ok files) :
    lookupDir (runTask upload cfg env st t).1.fs t.output_dir = some files ∧
    sentinel ∉ files := by
  refine ⟨?_, hfresh⟩
  unfold runTask
  dsimp only
  rw [if_neg (by simp [hov]), if_pos hknown, hconv]
  dsimp only
  have hpurge : (if (lookupDir st.fs t.output_dir).isSome ∧
      cfg.conversion.overwrite = true then removeDir st.fs t.output_dir
    else st.fs) = removeDir st.fs t.output_dir :=
    if_pos ⟨by simp [hdir], hov⟩
  rw [hpurge]
  split
  · exact purge_then_write st.fs t.output_dir files
  · exact purge_then_write st.fs t.output_dir files

/-- C7 witness: re-running the registered transformers task with overwrite
purges the sentinel file. -/
theorem overwrite_purges_output_dir_witness :
    lookupDir (runTask false cfgOverwrite envOkW stWithSentinel taskTrans).1.fs
      taskTrans.output_dir = some ["model.onnx"] ∧
    "sentinel.txt" ∉ ["model.onnx"] :=
  overwrite_purges_output_dir false cfgOverwrite envOkW stWithSentinel
    taskTrans ["old.bin", "sentinel.txt"] ["model.onnx"] "sentinel.txt"
    rfl (by decide) (by decide) (by decide) (by decide) (by decide) rfl

/-- C8: `upload_directory` raises not-found when the local directory does
not exist; otherwise it uploads exactly the non-directory entries, each
under the remote prefix with its `/`-joined relative path, skipping
directory entries, and returns a location string with no trailing
separator. -/
theorem upload_directory_contract (entries : List DirEntry) (uri : String)
    (hbucket : (partitionSlash uri).1 ≠ "") :
    upload_directory none uri = .error UploadErr.notFound ∧
    ∃ ups loc, upload_directory (some entries) uri = .ok (ups, loc) ∧
      ups = (entries.filter fun e => !e.isDir).map
        (fun e => (e.rel, uploadKey (partitionSlash uri).2 e.rel)) ∧
      (∀ e ∈ entries, e.isDir = false →
        (e.rel, uploadKey (partitionSlash uri).2 e.rel) ∈ ups) ∧
      endsWithSlash loc = false := by
  refine ⟨rfl, ?_⟩
  unfold upload_directory
  dsimp only
  rw [if_neg hbucket]
  refine ⟨_, _, rfl, rfl, ?_, endsWithSlash_rstripSlash _⟩
  intro e he hdir
  refine List.mem_map.mpr ⟨e, ?_, rfl⟩
  exact List.mem_filter.mpr ⟨he, by simp [hdir]⟩

/-- A small local tree: two regular files, one subdirectory entry. -/
def dirEntriesW : List DirEntry :=
  [{ rel := ["config.json"], isDir := false },
   { rel := ["sub"], isDir := true },
   { rel := ["sub", "model.bin"], isDir := false }]

/-- C8 witness: uploading a small tree with one subdirectory entry. -/
theorem upload_directory_contract_witness :
    upload_directory none "bucket/models/bert/" = .error UploadErr.notFound ∧
    ∃ ups loc, upload_directory (some dirEntriesW) "bucket/models/bert/" =
        .ok (ups, loc) ∧
      ups = (dirEntriesW.filter fun e => !e.isDir).map
        (fun e => (e.rel,
          uploadKey (partitionSlash "bucket/models/bert/").2 e.rel)) ∧
      (∀ e ∈ dirEntriesW, e.isDir = false →
        (e.rel, uploadKey (partitionSlash "bucket/models/bert/").2 e.rel)
          ∈ ups) ∧
      endsWithSlash loc = false :=
  upload_directory_contract dirEntriesW "bucket/models/bert/" (by decide)

end NlpInferBench
